import Mathlib

/-!
Shallow embedding of the jwt_generate wallet application
(`src/apps/jwt-generate/index.ts`) and of the collaborator pieces it uses.

Strings are modelled as lists of characters (`Str`), byte buffers as lists
of naturals below 256.  The AssemblyScript helpers used by the source are
embedded directly:

* `String.UTF8.encode(s, true)`  — `utf8EncodeNT` (null-terminated UTF-8);
* `String.UTF8.decode(buf, true)` — `utf8DecodeNT`;
* `encode` / `decode` from the `as-base64` dependency — `base64Encode` /
  `base64Decode` (standard RFC 4648 alphabet with `=` padding; the decoder
  is lenient on input that is not valid base64, as the library is);
* `String.prototype.split(".")` — `splitDot`;
* `String.prototype.replace("\\", "")` — `removeFirst` (first occurrence).

The `Wallet` class lives in `wallet/wallet.ts`, which is not part of the
given sources; its operations are modelled from the specification (each
such definition is marked `Modelled from the spec:` in its doc comment).
The entry points of `index.ts` (`generateKey`, `removeKey`, `importKey`,
`listKeys`, `addUser`, `removeUser`, `createWallet`, `generateJWT`,
`checkJWT`) are translated from the source file itself; each returns the
resulting persisted state (for transactions) together with the ordered
trace of observable events: `Wallet.load()` calls, base64/UTF-8 decoding
of token segments, `emit` messages, `save` calls and `revert` calls.
-/

abbrev Str := List Char

/-- UTF-8 encoding of a single Unicode code point (as used by
AssemblyScript `String.UTF8.encode`). -/
def utf8EncodeChar (c : Nat) : List Nat :=
  if c < 128 then [c]
  else if c < 2048 then [192 + c / 64, 128 + c % 64]
  else if c < 65536 then [224 + c / 4096, 128 + c / 64 % 64, 128 + c % 64]
  else [240 + c / 262144, 128 + c / 4096 % 64, 128 + c / 64 % 64, 128 + c % 64]

/-- UTF-8 encoding of a string. -/
def utf8Encode : Str → List Nat
  | [] => []
  | c :: r => utf8EncodeChar c.toNat ++ utf8Encode r

/-- AssemblyScript `String.UTF8.encode(s, true)`: UTF-8 bytes followed by a
null terminator. -/
def utf8EncodeNT (s : Str) : List Nat := utf8Encode s ++ [0]

/-- UTF-8 decoding (total; lenient on malformed input, which only ever
feeds observability messages in the embedded program; a truncated
multi-byte sequence at the end of the input is dropped). -/
def utf8Decode : List Nat → Str
  | [] => []
  | b :: r =>
    if b < 128 then Char.ofNat b :: utf8Decode r
    else if b < 224 then
      if r.length < 1 then []
      else Char.ofNat ((b - 192) * 64 + (r.getD 0 0 - 128)) :: utf8Decode (r.drop 1)
    else if b < 240 then
      if r.length < 2 then []
      else Char.ofNat ((b - 224) * 4096 + (r.getD 0 0 - 128) * 64 + (r.getD 1 0 - 128))
        :: utf8Decode (r.drop 2)
    else
      if r.length < 3 then []
      else Char.ofNat ((b - 240) * 262144 + (r.getD 0 0 - 128) * 4096
        + (r.getD 1 0 - 128) * 64 + (r.getD 2 0 - 128)) :: utf8Decode (r.drop 3)
termination_by l => l.length
decreasing_by
  all_goals simp_arith [List.length_drop]

/-- AssemblyScript `String.UTF8.decode(buf, true)`: decode up to the first
null byte. -/
def utf8DecodeNT (bs : List Nat) : Str := utf8Decode (bs.takeWhile (fun b => b != 0))

/-- The base64 alphabet used by the `as-base64` dependency (standard
RFC 4648 alphabet). -/
def b64Alphabet : Str :=
  ("ABCDEFGHIJKLMNOPQRSTUVWXYZabcdefghijklmnopqrstuvwxyz0123456789+/").toList

/-- Character for a 6-bit group. -/
def b64Char (n : Nat) : Char := b64Alphabet.getD n 'A'

/-- The `encode` function of the `as-base64` dependency: standard base64
with `=` padding. -/
def base64Encode : List Nat → Str
  | [] => []
  | [a] => [b64Char (a / 4), b64Char (a % 4 * 16), '=', '=']
  | [a, b] => [b64Char (a / 4), b64Char (a % 4 * 16 + b / 16), b64Char (b % 16 * 4), '=']
  | a :: b :: c :: rest =>
    b64Char (a / 4) :: b64Char (a % 4 * 16 + b / 16) ::
      b64Char (b % 16 * 4 + c / 64) :: b64Char (c % 64) :: base64Encode rest

/-- Index of a character in the base64 alphabet. -/
def b64Value (c : Char) : Nat := b64Alphabet.indexOf c

/-- Recombine 6-bit groups into bytes (groups of four values give three
bytes; trailing groups of three or two give two bytes or one). -/
def base64DecodeVals : List Nat → List Nat
  | a :: b :: c :: d :: rest =>
    (a * 4 + b / 16) :: (b % 16 * 16 + c / 4) :: (c % 4 * 64 + d) :: base64DecodeVals rest
  | [a, b, c] => [a * 4 + b / 16, b % 16 * 16 + c / 4]
  | [a, b] => [a * 4 + b / 16]
  | _ => []

/-- The `decode` function of the `as-base64` dependency (standard base64;
on input that is not valid base64 it produces garbage rather than
failing, like the library). -/
def base64Decode (s : Str) : List Nat :=
  base64DecodeVals ((s.filter (fun c => c != '=')).map b64Value)

/-- Whether a string is made of base64 alphabet characters and padding. -/
def b64Valid (s : Str) : Bool := s.all (fun c => b64Alphabet.contains c || c == '=')

/-- AssemblyScript `jwt.split(".")`. -/
def splitDot : Str → List Str
  | [] => [[]]
  | c :: rest =>
    if c = '.' then [] :: splitDot rest
    else
      match splitDot rest with
      | s :: ss => (c :: s) :: ss
      | [] => [[c]]

/-- AssemblyScript `s.replace(c, "")`: remove the first occurrence of a
character. -/
def removeFirst (c : Char) : Str → Str
  | [] => []
  | x :: r => if x = c then r else x :: removeFirst c r

/-- Serialization of the `JWTHeader` class by `JSON.stringify`:
`\x7b"alg":"<alg>"\x7d`. -/
def jwtHeaderJson (alg : Str) : Str :=
  ("\x7b\"alg\":\"").toList ++ alg ++ ("\"\x7d").toList

/-- Modelled from the spec: a key record of the wallet's KeyStore
(keyId, description, algorithm, extractable flag, usage tags); the raw
key material stays with the crypto provider. -/
structure KeyRecord where
  keyId : Str
  description : Str
  algorithm : Str
  extractable : Bool
  usages : List Str
  deriving DecidableEq, Repr

/-- Modelled from the spec: a user record of the wallet's UserStore. -/
structure UserRecord where
  userId : Str
  role : Str
  deriving DecidableEq, Repr

/-- Modelled from the spec: the wallet aggregate (name, key records, user
records) as persisted by `Wallet.save`. -/
structure Wallet where
  name : Str
  keys : List KeyRecord
  users : List UserRecord
  deriving DecidableEq, Repr

/-- The external CryptoProvider collaborator, specified only at its
interface: key-pair generation, key import, signing and verification.
Signatures are byte strings. -/
structure CryptoProvider where
  generateKeyPair : Str → Option Str
  importKey : Str → List Nat → Str → Bool → List Str → Option Str
  sign : Str → Str → Option (List Nat)
  verify : Str → Str → List Nat → Bool

/-- Whether a key with the given id is present in the wallet. -/
def Wallet.hasKey (w : Wallet) (keyId : Str) : Bool :=
  w.keys.any (fun kr => kr.keyId == keyId)

/-- Modelled from the spec: `Wallet.sign` resolves the key in the
KeyStore, delegates to the provider and returns the base64url-encoded
signature; signing fails on an unknown keyId or a provider error. -/
def Wallet.sign (P : CryptoProvider) (w : Wallet) (keyId msg : Str) : Option Str :=
  if w.hasKey keyId then (P.sign keyId msg).map base64Encode else none

/-- Modelled from the spec: `Wallet.verify` resolves the key in the
KeyStore and delegates to the provider on the decoded signature; an
unknown keyId verifies to false. -/
def Wallet.verify (P : CryptoProvider) (w : Wallet) (keyId msg sigB64 : Str) : Bool :=
  if w.hasKey keyId then P.verify keyId msg (base64Decode sigB64) else false

/-- Modelled from the spec: `Wallet.generateKey` validates the algorithm
against the closed set, delegates to the provider and inserts a fresh
record on success; on failure it makes no change. -/
def Wallet.generateKey (P : CryptoProvider) (w : Wallet) (description algorithm : Str) :
    Bool × Wallet :=
  if algorithm == ("ECDSA").toList || algorithm == ("AES-GCM").toList ||
      algorithm == ("RSA-PSS").toList then
    match P.generateKeyPair algorithm with
    | some kid => (true, ⟨w.name, w.keys ++ [⟨kid, description, algorithm, false, []⟩], w.users⟩)
    | none => (false, w)
  else (false, w)

/-- Modelled from the spec: `Wallet.importKey` validates the format
against raw/spki/pkcs8/jwk, base64-decodes the key data (a malformed
encoding is a validation failure with no change), delegates to the
provider and inserts a record on success; on failure it makes no
change. -/
def Wallet.importKey (P : CryptoProvider) (w : Wallet)
    (description format keyData algorithm : Str) (extractable : Bool)
    (usages : List Str) : Bool × Wallet :=
  if format == ("raw").toList || format == ("spki").toList ||
      format == ("pkcs8").toList || format == ("jwk").toList then
    if b64Valid keyData then
      match P.importKey format (base64Decode keyData) algorithm extractable usages with
      | some kid =>
        (true, ⟨w.name, w.keys ++ [⟨kid, description, algorithm, extractable, usages⟩], w.users⟩)
      | none => (false, w)
    else (false, w)
  else (false, w)

/-- Modelled from the spec: `Wallet.removeKey` deletes the record when
present and reports a benign failure (no change) when absent. -/
def Wallet.removeKey (w : Wallet) (keyId : Str) : Bool × Wallet :=
  if w.hasKey keyId then
    (true, ⟨w.name, w.keys.filter (fun kr => kr.keyId != keyId), w.users⟩)
  else (false, w)

/-- Modelled from the spec: `Wallet.addUser` fails when the userId is
already present or the role is outside admin/user; otherwise inserts the
record.  The third boolean argument of the call site in `index.ts` is not
described by the spec and is modelled as unused. -/
def Wallet.addUser (w : Wallet) (userId role : Str) (_flag : Bool) : Bool × Wallet :=
  if w.users.any (fun u => u.userId == userId) then (false, w)
  else if role == ("admin").toList || role == ("user").toList then
    (true, ⟨w.name, w.keys, w.users ++ [⟨userId, role⟩]⟩)
  else (false, w)

/-- Modelled from the spec: `Wallet.removeUser` fails when the userId is
absent or the target is the sole remaining admin; otherwise removes the
record. -/
def Wallet.removeUser (w : Wallet) (userId : Str) : Bool × Wallet :=
  match w.users.find? (fun u => u.userId == userId) with
  | none => (false, w)
  | some u =>
    if u.role == ("admin").toList &&
        (w.users.filter (fun v => v.role == ("admin").toList)).length == 1 then
      (false, w)
    else (true, ⟨w.name, w.keys, w.users.filter (fun v => v.userId != userId)⟩)

/-- Modelled from the spec: `Wallet.listKeys` renders the metadata of the
key records (all of them for an empty user filter). -/
def Wallet.listKeys (w : Wallet) (_user : Str) : Str :=
  List.intercalate ((",").toList)
    (w.keys.map (fun kr => kr.keyId ++ (":").toList ++ kr.algorithm))

/-- Modelled from the spec: `Wallet.create` initializes an empty KeyStore
and UserStore under the given name. -/
def Wallet.create (name : Str) : Wallet := ⟨name, [], []⟩

/-- Observable events of one operation, in program order: a
`Wallet.load()` call, a base64/UTF-8 decoding of a token segment, an
`emit`, a `Wallet.save()` call, a `revert`. -/
inductive Event where
  | load : Event
  | decodeB64 : Str → Event
  | emit : Str → Event
  | save : Event
  | revert : Str → Event
  deriving DecidableEq, Repr

/-- Whether an event is a `revert` (the failure outcome of a call). -/
def isRevert : Event → Bool
  | Event.revert _ => true
  | _ => false

/-- Transaction `generateKey` of `index.ts` (lines 14-22). -/
def generateKey (P : CryptoProvider) (w : Option Wallet) (description algorithm : Str) :
    Option Wallet × List Event :=
  match w with
  | none => (none, [Event.load])
  | some wa =>
    let r := Wallet.generateKey P wa description algorithm
    if r.fst then (some r.snd, [Event.load, Event.save]) else (some r.snd, [Event.load])

/-- Transaction `removeKey` of `index.ts` (lines 30-38). -/
def removeKey (w : Option Wallet) (keyId : Str) : Option Wallet × List Event :=
  match w with
  | none => (none, [Event.load])
  | some wa =>
    let r := Wallet.removeKey wa keyId
    if r.fst then (some r.snd, [Event.load, Event.save]) else (some r.snd, [Event.load])

/-- Transaction `importKey` of `index.ts` (lines 47-54): note that the
result of `wallet.importKey` is discarded and `wallet.save()` is called
unconditionally. -/
def importKey (P : CryptoProvider) (w : Option Wallet)
    (description format keyData algorithm : Str) (extractable : Bool)
    (usages : List Str) : Option Wallet × List Event :=
  match w with
  | none => (none, [Event.load])
  | some wa =>
    let r := Wallet.importKey P wa description format keyData algorithm extractable usages
    (some r.snd, [Event.load, Event.save])

/-- Query `listKeys` of `index.ts` (lines 63-69). -/
def listKeys (w : Option Wallet) (user : Str) : List Event :=
  match w with
  | none => [Event.load]
  | some wa => [Event.load, Event.emit (Wallet.listKeys wa user)]

/-- Transaction `addUser` of `index.ts` (lines 78-86). -/
def addUser (w : Option Wallet) (userId role : Str) : Option Wallet × List Event :=
  match w with
  | none => (none, [Event.load])
  | some wa =>
    let r := Wallet.addUser wa userId role false
    if r.fst then (some r.snd, [Event.load, Event.save]) else (some r.snd, [Event.load])

/-- Transaction `removeUser` of `index.ts` (lines 94-102). -/
def removeUser (w : Option Wallet) (userId : Str) : Option Wallet × List Event :=
  match w with
  | none => (none, [Event.load])
  | some wa =>
    let r := Wallet.removeUser wa userId
    if r.fst then (some r.snd, [Event.load, Event.save]) else (some r.snd, [Event.load])

/-- Transaction `createWallet` of `index.ts` (lines 110-119). -/
def createWallet (w : Option Wallet) (name : Str) : Option Wallet × List Event :=
  match w with
  | some wa => (some wa, [Event.load, Event.revert (("Wallet does already exists.").toList)])
  | none => (some (Wallet.create name), [Event.load, Event.save])

/-- The signing input built by `generateJWT` (lines 135-143): base64 of
the null-terminated UTF-8 header JSON, a dot, base64 of the
null-terminated UTF-8 payload. -/
def signingInput (payload : Str) : Str :=
  base64Encode (utf8EncodeNT (jwtHeaderJson (("ECDSA").toList))) ++
    '.' :: base64Encode (utf8EncodeNT payload)

/-- The constant header segment stamped by `generateJWT`. -/
def ecdsaHeaderB64 : Str := base64Encode (utf8EncodeNT (jwtHeaderJson (("ECDSA").toList)))

/-- The token produced by `generateJWT` when signing succeeds (lines
147-153). -/
def mkToken (P : CryptoProvider) (wa : Wallet) (keyId payload : Str) : Option Str :=
  (Wallet.sign P wa keyId (signingInput payload)).map
    (fun sig => signingInput payload ++ '.' :: sig)

/-- Query `generateJWT` of `index.ts` (lines 129-156). -/
def generateJWT (P : CryptoProvider) (w : Option Wallet) (keyId payload : Str) :
    List Event :=
  match w with
  | none => [Event.load]
  | some wa =>
    let jwtPayload := signingInput payload
    let e1 := Event.emit (("Generating JWT: ").toList ++ jwtPayload ++
      (" - with key: ").toList ++ keyId)
    match mkToken P wa keyId payload with
    | none => [Event.load, e1, Event.revert (("Failed to generate JWT").toList)]
    | some t => [Event.load, e1, Event.emit (("JWT generated: ").toList ++ t)]

/-- Query `checkJWT` of `index.ts` (lines 165-193): split first, then
format check, then wallet load, then the two segment decodings (only
emitted), then signature verification. -/
def checkJWT (P : CryptoProvider) (w : Option Wallet) (keyId jwt : Str) : List Event :=
  let items := splitDot jwt
  if items.length ≠ 3 then [Event.revert (("Invalid JWT format").toList)]
  else
    match w with
    | none => [Event.load]
    | some wa =>
      let i0 := items.getD 0 []
      let i1 := items.getD 1 []
      let i2 := items.getD 2 []
      let hdrStr := removeFirst '\\' (utf8DecodeNT (base64Decode i0))
      let plStr := removeFirst '\\' (utf8DecodeNT (base64Decode i1))
      [Event.load, Event.decodeB64 i0, Event.emit (("jwtHeaderStr: ").toList ++ hdrStr),
        Event.decodeB64 i1, Event.emit (("jwtPayloadStr: ").toList ++ plStr)] ++
      (if Wallet.verify P wa keyId (i0 ++ '.' :: i1) i2 then
        [Event.emit (("Verification Successful").toList)]
      else [Event.revert (("Invalid JWT signature").toList)])

/-- A concrete crypto provider used for evaluating the operations on
concrete inputs: key generation and import always yield the handle
`kid`, signing always yields the byte string `[5]`, and verification
accepts exactly that byte string. -/
def trivialProvider : CryptoProvider :=
  ⟨fun _ => some (("kid").toList),
   fun _ _ _ _ _ => some (("kid").toList),
   fun _ _ => some [5],
   fun _ _ s => s == [5]⟩

/-- A concrete key record with id `k`. -/
def sampleKey : KeyRecord := ⟨("k").toList, ("d").toList, ("ECDSA").toList, true, []⟩

/-- A concrete wallet holding `sampleKey` and no users. -/
def sampleWallet : Wallet := ⟨("w").toList, [sampleKey], []⟩

/-- A concrete wallet with no keys. -/
def emptyWallet : Wallet := ⟨("w").toList, [], []⟩

/-- Every index maps into the base64 alphabet (out-of-range indices give
the default character, which is itself in the alphabet). -/
theorem b64Char_mem_alpha (n : Nat) : b64Char n ∈ b64Alphabet := by
  by_cases h : n < 64
  · revert h
    revert n
    decide
  · unfold b64Char
    rw [List.getD_eq_default]
    · decide
    · have hl : b64Alphabet.length = 64 := by decide
      omega

/-- No base64 character is the padding character. -/
theorem b64Char_ne_pad (n : Nat) : b64Char n ≠ '=' := by
  have h := b64Char_mem_alpha n
  intro he
  rw [he] at h
  revert h
  decide

/-- No base64 character is the dot separator. -/
theorem b64Char_ne_dot (n : Nat) : b64Char n ≠ '.' := by
  have h := b64Char_mem_alpha n
  intro he
  rw [he] at h
  revert h
  decide

/-- Every character of a base64 encoding is in the alphabet or is the
padding character. -/
theorem base64Encode_chars :
    ∀ bs : List Nat, ∀ c ∈ base64Encode bs, c ∈ b64Alphabet ∨ c = '=' := by
  intro bs
  induction bs using base64Encode.induct with
  | case1 =>
    intro c hc
    simp [base64Encode] at hc
  | case2 a =>
    intro c hc
    simp only [base64Encode, List.mem_cons, List.not_mem_nil, or_false] at hc
    rcases hc with h | h | h | h
    · exact Or.inl (by rw [h]; exact b64Char_mem_alpha _)
    · exact Or.inl (by rw [h]; exact b64Char_mem_alpha _)
    · exact Or.inr h
    · exact Or.inr h
  | case3 a b =>
    intro c hc
    simp only [base64Encode, List.mem_cons, List.not_mem_nil, or_false] at hc
    rcases hc with h | h | h | h
    · exact Or.inl (by rw [h]; exact b64Char_mem_alpha _)
    · exact Or.inl (by rw [h]; exact b64Char_mem_alpha _)
    · exact Or.inl (by rw [h]; exact b64Char_mem_alpha _)
    · exact Or.inr h
  | case4 a b c rest ih =>
    intro x hx
    simp only [base64Encode, List.mem_cons] at hx
    rcases hx with h | h | h | h | h
    · exact Or.inl (by rw [h]; exact b64Char_mem_alpha _)
    · exact Or.inl (by rw [h]; exact b64Char_mem_alpha _)
    · exact Or.inl (by rw [h]; exact b64Char_mem_alpha _)
    · exact Or.inl (by rw [h]; exact b64Char_mem_alpha _)
    · exact ih x h

/-- A base64 encoding never contains the dot separator. -/
theorem base64Encode_no_dot (bs : List Nat) : '.' ∉ base64Encode bs := by
  intro h
  rcases base64Encode_chars bs '.' h with hm | he
  · revert hm
    decide
  · exact absurd he (by decide)

/-- Splitting a dot-free string yields that single string. -/
theorem splitDot_no_dot (s : Str) (h : '.' ∉ s) : splitDot s = [s] := by
  induction s with
  | nil => rfl
  | cons c r ih =>
    simp only [List.mem_cons, not_or] at h
    have hc : ¬ c = '.' := fun he => h.1 he.symm
    simp only [splitDot, if_neg hc, ih h.2]

/-- Splitting past a leading dot-free chunk peels off that chunk. -/
theorem splitDot_append (a b : Str) (h : '.' ∉ a) :
    splitDot (a ++ ('.' :: b)) = a :: splitDot b := by
  induction a with
  | nil => simp [splitDot]
  | cons c r ih =>
    simp only [List.mem_cons, not_or] at h
    have hc : ¬ c = '.' := fun he => h.1 he.symm
    rw [List.cons_append, splitDot, if_neg hc, ih h.2]

/-- Splitting a three-segment dot-joined string. -/
theorem splitDot_three (a b c : Str) (ha : '.' ∉ a) (hb : '.' ∉ b) (hc : '.' ∉ c) :
    splitDot (a ++ ('.' :: (b ++ ('.' :: c)))) = [a, b, c] := by
  rw [splitDot_append a _ ha, splitDot_append b _ hb, splitDot_no_dot c hc]

/-- Boolean form of `b64Char_ne_pad` used to push filters through. -/
theorem b64Char_bne_pad (n : Nat) : (b64Char n != '=') = true := by
  simp only [bne_iff_ne, ne_eq]
  exact b64Char_ne_pad n

/-- Decoding a base64 character recovers its 6-bit value. -/
theorem b64Value_b64Char : ∀ n < 64, b64Value (b64Char n) = n := by decide

/-- The base64 decoder inverts the encoder on byte strings. -/
theorem base64_decode_encode :
    ∀ bs : List Nat, (∀ x ∈ bs, x < 256) → base64Decode (base64Encode bs) = bs := by
  intro bs
  induction bs using base64Encode.induct with
  | case1 => intro _; rfl
  | case2 a =>
    intro h
    have ha : a < 256 := h a (by simp)
    simp only [base64Encode, base64Decode, List.filter, b64Char_bne_pad,
      (by decide : (('=' : Char) != '=') = false), List.map_cons, List.map_nil]
    rw [b64Value_b64Char _ (by omega), b64Value_b64Char _ (by omega)]
    simp only [base64DecodeVals]
    congr 1
    omega
  | case3 a b =>
    intro h
    have ha : a < 256 := h a (by simp)
    have hb : b < 256 := h b (by simp)
    simp only [base64Encode, base64Decode, List.filter, b64Char_bne_pad,
      (by decide : (('=' : Char) != '=') = false), List.map_cons, List.map_nil]
    rw [b64Value_b64Char _ (by omega), b64Value_b64Char _ (by omega),
      b64Value_b64Char _ (by omega)]
    simp only [base64DecodeVals]
    congr 1
    · omega
    · congr 1
      omega
  | case4 a b c rest ih =>
    intro h
    have ha : a < 256 := h a (by simp)
    have hb : b < 256 := h b (by simp)
    have hc : c < 256 := h c (by simp)
    have hrest : ∀ x ∈ rest, x < 256 := fun x hx => h x (by simp [hx])
    simp only [base64Encode, base64Decode, List.filter, b64Char_bne_pad,
      List.map_cons] at ih ⊢
    rw [b64Value_b64Char _ (by omega), b64Value_b64Char _ (by omega),
      b64Value_b64Char _ (by omega), b64Value_b64Char _ (by omega)]
    simp only [base64DecodeVals]
    rw [ih hrest]
    congr 1
    · omega
    · congr 1
      · omega
      · congr 1
        omega

/-- Every Unicode scalar value is below 1114112. -/
theorem char_toNat_lt (c : Char) : c.toNat < 1114112 := by
  rcases c.valid with h | ⟨_, h2⟩
  · exact Nat.lt_trans h (by norm_num)
  · exact h2

/-- UTF-8 bytes of a scalar value are bytes. -/
theorem utf8EncodeChar_lt256 (c : Nat) (hc : c < 1114112) :
    ∀ b ∈ utf8EncodeChar c, b < 256 := by
  intro b hb
  unfold utf8EncodeChar at hb
  split at hb
  · simp at hb
    omega
  · split at hb
    · simp at hb
      rcases hb with h | h <;> omega
    · split at hb
      · simp at hb
        rcases hb with h | h | h <;> omega
      · simp at hb
        rcases hb with h | h | h | h <;> omega

/-- UTF-8 bytes of a string are bytes. -/
theorem utf8Encode_lt256 (s : Str) : ∀ b ∈ utf8Encode s, b < 256 := by
  induction s with
  | nil => intro b hb; simp [utf8Encode] at hb
  | cons c r ih =>
    intro b hb
    simp only [utf8Encode, List.mem_append] at hb
    rcases hb with h | h
    · exact utf8EncodeChar_lt256 c.toNat (char_toNat_lt c) b h
    · exact ih b h

/-- UTF-8 bytes of a nonzero scalar value are nonzero. -/
theorem utf8EncodeChar_ne_zero (c : Nat) (hc : c ≠ 0) :
    ∀ b ∈ utf8EncodeChar c, b ≠ 0 := by
  intro b hb
  unfold utf8EncodeChar at hb
  split at hb
  · simp at hb
    omega
  · split at hb
    · simp at hb
      rcases hb with h | h <;> omega
    · split at hb
      · simp at hb
        rcases hb with h | h | h <;> omega
      · simp at hb
        rcases hb with h | h | h | h <;> omega

/-- One decoding step on an ASCII byte. -/
theorem utf8Decode_c1 (b : Nat) (r : List Nat) (h : b < 128) :
    utf8Decode (b :: r) = Char.ofNat b :: utf8Decode r := by
  rw [utf8Decode, if_pos h]

/-- One decoding step on a two-byte sequence. -/
theorem utf8Decode_c2 (b b1 : Nat) (r : List Nat) (h1 : ¬ b < 128) (h2 : b < 224) :
    utf8Decode (b :: b1 :: r) = Char.ofNat ((b - 192) * 64 + (b1 - 128)) :: utf8Decode r := by
  rw [utf8Decode, if_neg h1, if_pos h2]
  simp [List.getD]

/-- One decoding step on a three-byte sequence. -/
theorem utf8Decode_c3 (b b1 b2 : Nat) (r : List Nat) (h1 : ¬ b < 128) (h2 : ¬ b < 224)
    (h3 : b < 240) :
    utf8Decode (b :: b1 :: b2 :: r)
      = Char.ofNat ((b - 224) * 4096 + (b1 - 128) * 64 + (b2 - 128)) :: utf8Decode r := by
  rw [utf8Decode, if_neg h1, if_neg h2, if_pos h3]
  simp [List.getD]

/-- One decoding step on a four-byte sequence. -/
theorem utf8Decode_c4 (b b1 b2 b3 : Nat) (r : List Nat) (h1 : ¬ b < 128) (h2 : ¬ b < 224)
    (h3 : ¬ b < 240) :
    utf8Decode (b :: b1 :: b2 :: b3 :: r)
      = Char.ofNat ((b - 240) * 262144 + (b1 - 128) * 4096 + (b2 - 128) * 64 + (b3 - 128))
          :: utf8Decode r := by
  rw [utf8Decode, if_neg h1, if_neg h2, if_neg h3]
  simp [List.getD]

/-- Decoding the UTF-8 bytes of one character in front of any tail
recovers that character. -/
theorem utf8_decode_encode_char (c : Char) (rest : List Nat) :
    utf8Decode (utf8EncodeChar c.toNat ++ rest) = c :: utf8Decode rest := by
  have hv : c.toNat < 1114112 := char_toNat_lt c
  unfold utf8EncodeChar
  by_cases h1 : c.toNat < 128
  · rw [if_pos h1]
    show utf8Decode (c.toNat :: rest) = c :: utf8Decode rest
    rw [utf8Decode_c1 _ _ h1, Char.ofNat_toNat]
  · rw [if_neg h1]
    by_cases h2 : c.toNat < 2048
    · rw [if_pos h2]
      show utf8Decode ((192 + c.toNat / 64) :: (128 + c.toNat % 64) :: rest)
        = c :: utf8Decode rest
      rw [utf8Decode_c2 _ _ _ (by omega) (by omega)]
      have harg : (192 + c.toNat / 64 - 192) * 64 + (128 + c.toNat % 64 - 128) = c.toNat := by
        omega
      rw [harg, Char.ofNat_toNat]
    · rw [if_neg h2]
      by_cases h3 : c.toNat < 65536
      · rw [if_pos h3]
        show utf8Decode ((224 + c.toNat / 4096) :: (128 + c.toNat / 64 % 64)
          :: (128 + c.toNat % 64) :: rest) = c :: utf8Decode rest
        rw [utf8Decode_c3 _ _ _ _ (by omega) (by omega) (by omega)]
        have harg : (224 + c.toNat / 4096 - 224) * 4096 + (128 + c.toNat / 64 % 64 - 128) * 64
            + (128 + c.toNat % 64 - 128) = c.toNat := by
          omega
        rw [harg, Char.ofNat_toNat]
      · rw [if_neg h3]
        show utf8Decode ((240 + c.toNat / 262144) :: (128 + c.toNat / 4096 % 64)
          :: (128 + c.toNat / 64 % 64) :: (128 + c.toNat % 64) :: rest) = c :: utf8Decode rest
        rw [utf8Decode_c4 _ _ _ _ _ (by omega) (by omega) (by omega)]
        have harg : (240 + c.toNat / 262144 - 240) * 262144
            + (128 + c.toNat / 4096 % 64 - 128) * 4096
            + (128 + c.toNat / 64 % 64 - 128) * 64 + (128 + c.toNat % 64 - 128) = c.toNat := by
          omega
        rw [harg, Char.ofNat_toNat]

/-- The UTF-8 decoder inverts the encoder. -/
theorem utf8_decode_encode (s : Str) : utf8Decode (utf8Encode s) = s := by
  induction s with
  | nil => rw [utf8Encode, utf8Decode]
  | cons c r ih =>
    rw [utf8Encode, utf8_decode_encode_char, ih]

/-- A character other than NUL has a nonzero scalar value. -/
theorem char_toNat_ne_zero (c : Char) (h : c ≠ '\x00') : c.toNat ≠ 0 := by
  intro h0
  apply h
  have := Char.ofNat_toNat c
  rw [h0] at this
  exact this.symm ▸ rfl

/-- UTF-8 bytes of a NUL-free string are nonzero. -/
theorem utf8Encode_ne_zero (s : Str) (h : ∀ c ∈ s, c ≠ '\x00') :
    ∀ b ∈ utf8Encode s, b ≠ 0 := by
  induction s with
  | nil => intro b hb; simp [utf8Encode] at hb
  | cons c r ih =>
    intro b hb
    simp only [utf8Encode, List.mem_append] at hb
    rcases hb with hb | hb
    · exact utf8EncodeChar_ne_zero c.toNat
        (char_toNat_ne_zero c (h c (by simp))) b hb
    · exact ih (fun x hx => h x (by simp [hx])) b hb

/-- Taking while nonzero stops exactly at the appended terminator. -/
theorem takeWhile_until_zero (l : List Nat) (h : ∀ b ∈ l, b ≠ 0) :
    (l ++ [0]).takeWhile (fun b => b != 0) = l := by
  induction l with
  | nil => simp [List.takeWhile]
  | cons b r ih =>
    have hb : (b != 0) = true := by
      simp only [bne_iff_ne, ne_eq]
      exact h b (by simp)
    simp only [List.cons_append, List.takeWhile_cons, hb, if_true]
    rw [ih (fun x hx => h x (by simp [hx]))]

/-- The null-terminated decoder inverts the null-terminated encoder on
NUL-free strings. -/
theorem utf8DecodeNT_encodeNT (s : Str) (h : ∀ c ∈ s, c ≠ '\x00') :
    utf8DecodeNT (utf8EncodeNT s) = s := by
  unfold utf8DecodeNT utf8EncodeNT
  rw [takeWhile_until_zero _ (utf8Encode_ne_zero s h), utf8_decode_encode]

/-- Structure of a successfully produced token: the provider signed the
signing input, the key is present, and the token is the signing input
followed by a dot and the encoded signature. -/
theorem mkToken_some (P : CryptoProvider) (wa : Wallet) (k p t : Str)
    (h : mkToken P wa k p = some t) :
    ∃ raw, P.sign k (signingInput p) = some raw ∧ Wallet.hasKey wa k = true ∧
      t = signingInput p ++ ('.' :: base64Encode raw) := by
  unfold mkToken Wallet.sign at h
  by_cases hk : Wallet.hasKey wa k
  · rw [if_pos hk] at h
    cases hs : P.sign k (signingInput p) with
    | none =>
      rw [hs] at h
      simp at h
    | some raw =>
      rw [hs] at h
      simp only [Option.map_some', Option.some.injEq] at h
      exact ⟨raw, rfl, hk, h.symm⟩
  · rw [if_neg hk] at h
    simp at h

/-- Splitting a produced token recovers its three segments. -/
theorem splitDot_token (p : Str) (sig : List Nat) :
    splitDot (signingInput p ++ ('.' :: base64Encode sig))
      = [ecdsaHeaderB64, base64Encode (utf8EncodeNT p), base64Encode sig] := by
  unfold signingInput
  rw [List.append_assoc, List.cons_append,
    splitDot_append _ _ (base64Encode_no_dot _),
    splitDot_append _ _ (base64Encode_no_dot _),
    splitDot_no_dot _ (base64Encode_no_dot _)]
  rfl

/-- A produced token contains exactly two dot separators. -/
theorem count_dot_token (p : Str) (sig : List Nat) :
    (signingInput p ++ ('.' :: base64Encode sig)).count '.' = 2 := by
  unfold signingInput
  have h0 : (base64Encode (utf8EncodeNT (jwtHeaderJson (("ECDSA").toList)))).count '.' = 0 :=
    List.count_eq_zero.mpr (base64Encode_no_dot _)
  have h1 : (base64Encode (utf8EncodeNT p)).count '.' = 0 :=
    List.count_eq_zero.mpr (base64Encode_no_dot _)
  have h2 : (base64Encode sig).count '.' = 0 :=
    List.count_eq_zero.mpr (base64Encode_no_dot _)
  rw [List.count_append, List.count_append, List.count_cons, List.count_cons, h0, h1, h2]
  simp

/-- Evaluation of `checkJWT` on a malformed token: the format check comes
first, so the trace is the single revert, with no load, no decoding and
no emit. -/
theorem checkJWT_bad_format (P : CryptoProvider) (w : Option Wallet) (k jwt : Str)
    (h : (splitDot jwt).length ≠ 3) :
    checkJWT P w k jwt = [Event.revert (("Invalid JWT format").toList)] := by
  unfold checkJWT
  rw [if_pos h]

/-- Evaluation of `checkJWT` on a well-formed three-segment token with a
wallet present. -/
theorem checkJWT_eval3 (P : CryptoProvider) (wa : Wallet) (k s0 s1 s2 : Str)
    (h0 : '.' ∉ s0) (h1 : '.' ∉ s1) (h2 : '.' ∉ s2) :
    checkJWT P (some wa) k (s0 ++ ('.' :: (s1 ++ ('.' :: s2))))
      = [Event.load, Event.decodeB64 s0,
          Event.emit ((("jwtHeaderStr: ").toList)
            ++ removeFirst '\\' (utf8DecodeNT (base64Decode s0))),
          Event.decodeB64 s1,
          Event.emit ((("jwtPayloadStr: ").toList)
            ++ removeFirst '\\' (utf8DecodeNT (base64Decode s1)))] ++
        (if Wallet.verify P wa k (s0 ++ ('.' :: s1)) s2 then
          [Event.emit (("Verification Successful").toList)]
        else [Event.revert (("Invalid JWT signature").toList)]) := by
  unfold checkJWT
  rw [splitDot_three s0 s1 s2 h0 h1 h2]
  simp [List.getD]

/-- The revert events of a `checkJWT` trace are a function of the segment
count and of the wallet's verification of the raw segments alone. -/
theorem checkJWT_filter_revert (P : CryptoProvider) (wa : Wallet) (k jwt : Str) :
    (checkJWT P (some wa) k jwt).filter isRevert
      = (if (splitDot jwt).length ≠ 3 then [Event.revert (("Invalid JWT format").toList)]
        else if Wallet.verify P wa k
            ((splitDot jwt).getD 0 [] ++ ('.' :: (splitDot jwt).getD 1 []))
            ((splitDot jwt).getD 2 []) then []
        else [Event.revert (("Invalid JWT signature").toList)]) := by
  unfold checkJWT
  by_cases h : (splitDot jwt).length ≠ 3
  · rw [if_pos h, if_pos h]
    rfl
  · push_neg at h
    obtain ⟨s0, s1, s2, hsp⟩ := List.length_eq_three.mp h
    rw [hsp]
    have hlen : ¬ ([s0, s1, s2] : List Str).length ≠ 3 := by simp
    rw [if_neg hlen, if_neg hlen]
    simp only [List.getD_cons_zero, List.getD_cons_succ]
    by_cases hv : Wallet.verify P wa k (s0 ++ ('.' :: s1)) s2 = true
    · rw [if_pos hv, if_pos hv]
      simp [isRevert, List.filter_append, List.filter]
    · rw [if_neg hv, if_neg hv]
      simp [isRevert, List.filter_append, List.filter]

/-- Claim C6: createWallet is exactly-once — for every state in which a
wallet already exists, a second createWallet call aborts with an
"already exists" error and leaves the wallet's name, keys and users
unchanged, and save is never invoked. -/
theorem createWallet_exactly_once (w : Wallet) (name : Str) :
    createWallet (some w) name
      = (some w, [Event.load, Event.revert (("Wallet does already exists.").toList)]) := rfl

/-- Claim C9: when no wallet exists, generateKey, removeKey, importKey,
listKeys, addUser, removeUser and generateJWT all return early as silent
no-ops: no revert, no emit, no save, no state change — the trace holds
only the load. -/
theorem missing_wallet_silent_noop (P : CryptoProvider) (d a k u r pay kd fmt : Str)
    (ex : Bool) (us : List Str) :
    generateKey P none d a = (none, [Event.load]) ∧
    removeKey none k = (none, [Event.load]) ∧
    importKey P none d fmt kd a ex us = (none, [Event.load]) ∧
    listKeys none u = [Event.load] ∧
    addUser none u r = (none, [Event.load]) ∧
    removeUser none u = (none, [Event.load]) ∧
    generateJWT P none k pay = [Event.load] :=
  ⟨rfl, rfl, rfl, rfl, rfl, rfl, rfl⟩

/-- Claim C7: for every keyId not present in the wallet, removeKey
returns a benign failure — no revert, no save, and the state is left
identical. -/
theorem removeKey_absent_benign (w : Wallet) (k : Str)
    (h : ∀ kr ∈ w.keys, kr.keyId ≠ k) :
    removeKey (some w) k = (some w, [Event.load]) := by
  have hk : Wallet.hasKey w k = false := by
    unfold Wallet.hasKey
    rw [List.any_eq_false]
    intro kr hkr
    simp [h kr hkr]
  unfold removeKey Wallet.removeKey
  simp [hk]

/-- Concrete instance of `removeKey_absent_benign` on a wallet with no
keys. -/
theorem removeKey_absent_benign_wit :
    removeKey (some emptyWallet) (("k").toList) = (some emptyWallet, [Event.load]) :=
  removeKey_absent_benign emptyWallet (("k").toList) (by decide)

/-- Claim C4: a token whose split on the dot does not yield exactly three
segments makes checkJWT fail with the format error, and this happens
before any wallet load and before any segment decoding — the trace is
the single revert. -/
theorem checkJWT_format_error_first (P : CryptoProvider) (w : Option Wallet) (k jwt : Str)
    (h : (splitDot jwt).length ≠ 3) :
    checkJWT P w k jwt = [Event.revert (("Invalid JWT format").toList)] ∧
    Event.load ∉ checkJWT P w k jwt ∧
    (∀ s, Event.decodeB64 s ∉ checkJWT P w k jwt) := by
  have he := checkJWT_bad_format P w k jwt h
  refine ⟨he, ?_, ?_⟩
  · rw [he]
    simp
  · intro s
    rw [he]
    simp

/-- Concrete instance of `checkJWT_format_error_first` on a two-segment
string. -/
theorem checkJWT_format_error_first_wit :
    checkJWT trivialProvider (some sampleWallet) (("k").toList) (("ab.cd").toList)
        = [Event.revert (("Invalid JWT format").toList)] ∧
    Event.load ∉ checkJWT trivialProvider (some sampleWallet) (("k").toList) (("ab.cd").toList) ∧
    (∀ s, Event.decodeB64 s
        ∉ checkJWT trivialProvider (some sampleWallet) (("k").toList) (("ab.cd").toList)) :=
  checkJWT_format_error_first trivialProvider (some sampleWallet) (("k").toList)
    (("ab.cd").toList) (by decide)

/-- Claim C1 (code bug evaluation): on an import whose underlying
`Wallet.importKey` fails — here an invalid format — the `importKey`
transaction still invokes save: the wallet is unchanged (no KeyRecord
inserted) yet the trace contains the save event. -/
theorem importKey_unconditional_save :
    (Wallet.importKey trivialProvider sampleWallet (("d").toList) (("bogus").toList)
      (("AA==").toList) (("ECDSA").toList) true []).fst = false ∧
    importKey trivialProvider (some sampleWallet) (("d").toList) (("bogus").toList)
      (("AA==").toList) (("ECDSA").toList) true []
      = (some sampleWallet, [Event.load, Event.save]) := by
  exact ⟨rfl, rfl⟩

/-- Claim C2 (amended): whenever signing succeeds, the emitted token has
exactly two dot separators, and base64-decoding its second segment
followed by the code's null-terminated UTF-8 decoding yields exactly the
payload, provided the payload contains no NUL character (a payload with
a NUL is truncated at the NUL — see the counterexample). -/
theorem generateJWT_payload_roundtrip (P : CryptoProvider) (wa : Wallet) (k p t : Str)
    (hm : mkToken P wa k p = some t) :
    t.count '.' = 2 ∧
    generateJWT P (some wa) k p = [Event.load,
      Event.emit ((("Generating JWT: ").toList) ++ signingInput p
        ++ ((" - with key: ").toList) ++ k),
      Event.emit ((("JWT generated: ").toList) ++ t)] ∧
    ((∀ c ∈ p, c ≠ '\x00') →
      ∃ hseg pseg sseg, splitDot t = [hseg, pseg, sseg]
        ∧ utf8DecodeNT (base64Decode pseg) = p) := by
  obtain ⟨raw, hsig, hk, ht⟩ := mkToken_some P wa k p t hm
  refine ⟨?_, ?_, ?_⟩
  · rw [ht]
    exact count_dot_token p raw
  · unfold generateJWT
    simp only [hm]
  · intro hz
    refine ⟨ecdsaHeaderB64, base64Encode (utf8EncodeNT p), base64Encode raw, ?_, ?_⟩
    · rw [ht]
      exact splitDot_token p raw
    · have hb : ∀ x ∈ utf8EncodeNT p, x < 256 := by
        intro x hx
        unfold utf8EncodeNT at hx
        rcases List.mem_append.mp hx with h | h
        · exact utf8Encode_lt256 p x h
        · simp at h
          omega
      rw [base64_decode_encode _ hb, utf8DecodeNT_encodeNT p hz]

/-- Concrete instance of `generateJWT_payload_roundtrip` for payload
`hi`. -/
theorem generateJWT_payload_roundtrip_wit :
    (("eyJhbGciOiJFQ0RTQSJ9AA==.aGkA.BQ==").toList).count '.' = 2 ∧
    generateJWT trivialProvider (some sampleWallet) (("k").toList) (("hi").toList)
      = [Event.load,
        Event.emit ((("Generating JWT: ").toList) ++ signingInput (("hi").toList)
          ++ ((" - with key: ").toList) ++ (("k").toList)),
        Event.emit ((("JWT generated: ").toList)
          ++ (("eyJhbGciOiJFQ0RTQSJ9AA==.aGkA.BQ==").toList))] ∧
    ((∀ c ∈ (("hi").toList), c ≠ '\x00') →
      ∃ hseg pseg sseg,
        splitDot (("eyJhbGciOiJFQ0RTQSJ9AA==.aGkA.BQ==").toList) = [hseg, pseg, sseg]
        ∧ utf8DecodeNT (base64Decode pseg) = (("hi").toList)) :=
  generateJWT_payload_roundtrip trivialProvider sampleWallet (("k").toList) (("hi").toList)
    (("eyJhbGciOiJFQ0RTQSJ9AA==.aGkA.BQ==").toList) (by decide)

/-- Claim C2 (counterexample): for the payload consisting of `a` followed
by a NUL character, signing succeeds, yet base64-decoding the second
segment of the produced token and UTF-8-decoding it yields `a`, not the
original payload — the round trip is not exact for every payload. -/
theorem generateJWT_payload_roundtrip_cex :
    mkToken trivialProvider sampleWallet (("k").toList) ['a', '\x00']
        = some (("eyJhbGciOiJFQ0RTQSJ9AA==.YQAA.BQ==").toList) ∧
    utf8DecodeNT (base64Decode
        ((splitDot (("eyJhbGciOiJFQ0RTQSJ9AA==.YQAA.BQ==").toList)).getD 1 []))
      ≠ ['a', '\x00'] := by
  constructor
  · decide
  · have h1 : (splitDot (("eyJhbGciOiJFQ0RTQSJ9AA==.YQAA.BQ==").toList)).getD 1 []
        = ("YQAA").toList := by decide
    rw [h1]
    have h2 : base64Decode (("YQAA").toList) = [97, 0, 0] := by decide
    rw [h2]
    unfold utf8DecodeNT
    have h3 : (([97, 0, 0] : List Nat).takeWhile (fun b => b != 0)) = [97] := by decide
    rw [h3]
    rw [utf8Decode_c1 _ _ (by omega), utf8Decode]
    decide

/-- Claim C3 (amended): the header and payload segments produced by
generateJWT are encoded with the standard base64 alphabet together with
the `=` padding character — not the URL-safe base64url alphabet (see the
counterexample, where a segment contains `/`). -/
theorem generateJWT_segments_std_base64 (P : CryptoProvider) (wa : Wallet) (k p t : Str)
    (hm : mkToken P wa k p = some t) :
    ∃ hseg pseg sseg, splitDot t = [hseg, pseg, sseg] ∧
      (∀ c ∈ hseg, c ∈ b64Alphabet ∨ c = '=') ∧
      (∀ c ∈ pseg, c ∈ b64Alphabet ∨ c = '=') := by
  obtain ⟨raw, hsig, hk, ht⟩ := mkToken_some P wa k p t hm
  refine ⟨ecdsaHeaderB64, base64Encode (utf8EncodeNT p), base64Encode raw, ?_, ?_, ?_⟩
  · rw [ht]
    exact splitDot_token p raw
  · exact base64Encode_chars _
  · exact base64Encode_chars _

/-- Concrete instance of `generateJWT_segments_std_base64` for payload
`hi`. -/
theorem generateJWT_segments_std_base64_wit :
    ∃ hseg pseg sseg,
      splitDot (("eyJhbGciOiJFQ0RTQSJ9AA==.aGkA.BQ==").toList) = [hseg, pseg, sseg] ∧
      (∀ c ∈ hseg, c ∈ b64Alphabet ∨ c = '=') ∧
      (∀ c ∈ pseg, c ∈ b64Alphabet ∨ c = '=') :=
  generateJWT_segments_std_base64 trivialProvider sampleWallet (("k").toList)
    (("hi").toList) (("eyJhbGciOiJFQ0RTQSJ9AA==.aGkA.BQ==").toList) (by decide)

/-- Claim C3 (counterexample): for the payload `???`, signing succeeds
and the payload segment of the produced token contains the character
`/`, which the URL-safe base64url alphabet replaces by `_` — so the
segments are not base64url-encoded. -/
theorem generateJWT_base64url_cex :
    mkToken trivialProvider sampleWallet (("k").toList) (("???").toList)
        = some (("eyJhbGciOiJFQ0RTQSJ9AA==.Pz8/AA==.BQ==").toList) ∧
    '/' ∈ (splitDot (("eyJhbGciOiJFQ0RTQSJ9AA==.Pz8/AA==.BQ==").toList)).getD 1 [] := by
  exact ⟨by decide, by decide⟩

/-- Claim C5: token round trip — when the provider's verify accepts its
own sign output on the same bytes, every token produced by generateJWT
is accepted by checkJWT (no revert in the trace); and for any
three-segment token, checkJWT fails with the invalid-signature error
exactly when the wallet's verify of the first two raw segments joined by
a dot against the third segment returns false. -/
theorem generateJWT_checkJWT_roundtrip (P : CryptoProvider) (wa : Wallet) (k p t : Str)
    (hm : mkToken P wa k p = some t)
    (hacc : ∀ m raw, P.sign k m = some raw → P.verify k m raw = true)
    (hbytes : ∀ m raw, P.sign k m = some raw → ∀ x ∈ raw, x < 256) :
    (checkJWT P (some wa) k t).filter isRevert = [] ∧
    (∀ s0 s1 s2 : Str, '.' ∉ s0 → '.' ∉ s1 → '.' ∉ s2 →
      ((checkJWT P (some wa) k (s0 ++ ('.' :: (s1 ++ ('.' :: s2))))).filter isRevert
          = [Event.revert (("Invalid JWT signature").toList)]
        ↔ Wallet.verify P wa k (s0 ++ ('.' :: s1)) s2 = false)) := by
  obtain ⟨raw, hsig, hk, ht⟩ := mkToken_some P wa k p t hm
  constructor
  · rw [ht, checkJWT_filter_revert, splitDot_token p raw]
    have hlen : ¬ ([ecdsaHeaderB64, base64Encode (utf8EncodeNT p),
        base64Encode raw] : List Str).length ≠ 3 := by simp
    rw [if_neg hlen]
    simp only [List.getD_cons_zero, List.getD_cons_succ]
    have hver : Wallet.verify P wa k
        (ecdsaHeaderB64 ++ ('.' :: base64Encode (utf8EncodeNT p))) (base64Encode raw)
        = true := by
      unfold Wallet.verify
      rw [if_pos hk]
      rw [base64_decode_encode raw (hbytes _ raw hsig)]
      exact hacc _ raw hsig
    rw [if_pos hver]
  · intro s0 s1 s2 h0 h1 h2
    rw [checkJWT_filter_revert, splitDot_three s0 s1 s2 h0 h1 h2]
    have hlen : ¬ ([s0, s1, s2] : List Str).length ≠ 3 := by simp
    rw [if_neg hlen]
    simp only [List.getD_cons_zero, List.getD_cons_succ]
    by_cases hv : Wallet.verify P wa k (s0 ++ ('.' :: s1)) s2 = true
    · rw [if_pos hv]
      simp [hv]
    · rw [if_neg hv]
      simp [Bool.not_eq_true] at hv
      simp [hv]

/-- Concrete instance of `generateJWT_checkJWT_roundtrip`: the token
produced for payload `hi` with the sample wallet passes checkJWT. -/
theorem generateJWT_checkJWT_roundtrip_wit :
    (checkJWT trivialProvider (some sampleWallet) (("k").toList)
      (("eyJhbGciOiJFQ0RTQSJ9AA==.aGkA.BQ==").toList)).filter isRevert = [] :=
  (generateJWT_checkJWT_roundtrip trivialProvider sampleWallet (("k").toList)
    (("hi").toList) (("eyJhbGciOiJFQ0RTQSJ9AA==.aGkA.BQ==").toList) (by decide)
    (fun m raw hr => by
      injection hr with h
      rw [← h]
      rfl)
    (fun m raw hr => by
      injection hr with h
      rw [← h]
      decide)).1

/-- Claim C8: the header segment of every produced token is the fixed
base64 encoding of the ECDSA header JSON, whatever the key and its
algorithm; and checkJWT never re-validates the decoded header against
the key: replacing the header segment by any other dot-free string on
which the wallet's verify agrees leaves the accept/reject outcome
unchanged. -/
theorem jwt_header_fixed_alg (P : CryptoProvider) (wa : Wallet) (k p t : Str)
    (hm : mkToken P wa k p = some t) (s0 s0' s1 s2 : Str)
    (h0 : '.' ∉ s0) (h0' : '.' ∉ s0') (h1 : '.' ∉ s1) (h2 : '.' ∉ s2)
    (hvv : Wallet.verify P wa k (s0 ++ ('.' :: s1)) s2
      = Wallet.verify P wa k (s0' ++ ('.' :: s1)) s2) :
    (∃ sseg, splitDot t = [ecdsaHeaderB64, base64Encode (utf8EncodeNT p), sseg]) ∧
    (checkJWT P (some wa) k (s0 ++ ('.' :: (s1 ++ ('.' :: s2))))).filter isRevert
      = (checkJWT P (some wa) k (s0' ++ ('.' :: (s1 ++ ('.' :: s2))))).filter isRevert := by
  obtain ⟨raw, hsig, hk, ht⟩ := mkToken_some P wa k p t hm
  constructor
  · exact ⟨base64Encode raw, by rw [ht]; exact splitDot_token p raw⟩
  · rw [checkJWT_filter_revert, checkJWT_filter_revert,
      splitDot_three s0 s1 s2 h0 h1 h2, splitDot_three s0' s1 s2 h0' h1 h2]
    have hl : ¬ ([s0, s1, s2] : List Str).length ≠ 3 := by simp
    have hl' : ¬ ([s0', s1, s2] : List Str).length ≠ 3 := by simp
    rw [if_neg hl, if_neg hl']
    simp only [List.getD_cons_zero, List.getD_cons_succ]
    simp only [hvv]

/-- Concrete instance of `jwt_header_fixed_alg`: two different header
segments with equal verify results give the same outcome. -/
theorem jwt_header_fixed_alg_wit :
    (∃ sseg, splitDot (("eyJhbGciOiJFQ0RTQSJ9AA==.aGkA.BQ==").toList)
      = [ecdsaHeaderB64, base64Encode (utf8EncodeNT (("hi").toList)), sseg]) ∧
    (checkJWT trivialProvider (some sampleWallet) (("k").toList)
        ((("AAAA").toList) ++ ('.' :: ((("aGkA").toList) ++ ('.' :: (("BQ==").toList)))))).filter
        isRevert
      = (checkJWT trivialProvider (some sampleWallet) (("k").toList)
        ((("ZZZZ").toList) ++ ('.' :: ((("aGkA").toList) ++ ('.' :: (("BQ==").toList)))))).filter
        isRevert :=
  jwt_header_fixed_alg trivialProvider sampleWallet (("k").toList) (("hi").toList)
    (("eyJhbGciOiJFQ0RTQSJ9AA==.aGkA.BQ==").toList) (by decide)
    (("AAAA").toList) (("ZZZZ").toList) (("aGkA").toList) (("BQ==").toList)
    (by decide) (by decide) (by decide) (by decide) (by decide)

/-- Claim C10: the accept/reject outcome of checkJWT is determined only
by the segment count and by the wallet's verify applied to the raw first
and second segments joined by a dot and the raw third segment — two runs
agreeing on those agree on the revert events, whatever the decoded
header and payload contents. -/
theorem checkJWT_outcome_determined (P1 P2 : CryptoProvider) (w1 w2 : Wallet)
    (k1 k2 j1 j2 : Str)
    (hlen : (splitDot j1).length = 3 ↔ (splitDot j2).length = 3)
    (hver : ∀ a1 b1 c1 a2 b2 c2 : Str, splitDot j1 = [a1, b1, c1] →
      splitDot j2 = [a2, b2, c2] →
      Wallet.verify P1 w1 k1 (a1 ++ ('.' :: b1)) c1
        = Wallet.verify P2 w2 k2 (a2 ++ ('.' :: b2)) c2) :
    (checkJWT P1 (some w1) k1 j1).filter isRevert
      = (checkJWT P2 (some w2) k2 j2).filter isRevert := by
  rw [checkJWT_filter_revert, checkJWT_filter_revert]
  by_cases h1 : (splitDot j1).length = 3
  · have h2 : (splitDot j2).length = 3 := hlen.mp h1
    obtain ⟨a1, b1, c1, e1⟩ := List.length_eq_three.mp h1
    obtain ⟨a2, b2, c2, e2⟩ := List.length_eq_three.mp h2
    rw [e1, e2]
    have hl1 : ¬ ([a1, b1, c1] : List Str).length ≠ 3 := by simp
    have hl2 : ¬ ([a2, b2, c2] : List Str).length ≠ 3 := by simp
    rw [if_neg hl1, if_neg hl2]
    simp only [List.getD_cons_zero, List.getD_cons_succ]
    simp only [hver a1 b1 c1 a2 b2 c2 e1 e2]
  · have h2 : ¬ (splitDot j2).length = 3 := fun hh => h1 (hlen.mpr hh)
    rw [if_pos h1, if_pos h2]

/-- Concrete instance of `checkJWT_outcome_determined`: two different
three-segment tokens with agreeing verify results get the same revert
events. -/
theorem checkJWT_outcome_determined_wit :
    (checkJWT trivialProvider (some emptyWallet) (("k").toList)
        (("a.b.c").toList)).filter isRevert
      = (checkJWT trivialProvider (some emptyWallet) (("k").toList)
        (("d.e.f").toList)).filter isRevert :=
  checkJWT_outcome_determined trivialProvider trivialProvider emptyWallet emptyWallet
    (("k").toList) (("k").toList) (("a.b.c").toList) (("d.e.f").toList)
    (by decide) (fun _ _ _ _ _ _ _ _ => rfl)
